import Mathlib

/-!
# Verification of the goreportcard bookkeeping / ledger pipeline

Shallow embedding of `src/handlers/bookkeeping.go` and the second copy of the
handlers file (`src/unnamed/part_000`), together with the parts of the `vault`
package that the spec describes but whose source is not supplied.

Modelling choices:
* Go `float64` amounts are modelled by exact rationals `ℚ`.  All concrete
  amounts appearing in the specification (`100.50`, `2.00`, sums thereof) are
  exactly representable in binary floating point, and none of the verified
  statements depends on rounding, so `ℚ` is a faithful model here.
* Go `int` counters start at zero and are only incremented, so they are
  modelled by `Nat`.
* `fmt.Sscanf(s, "%f", &x)` is modelled by `sscanfFloat` below, covering the
  plain decimal forms (optional sign, digits, optional fraction, optional
  exponent, leading spaces skipped, trailing garbage ignored); the exotic
  forms (hex floats, `Inf`, `NaN`, digit underscores) are outside the inputs
  considered by the specification.
-/

namespace Goreportcard

/-- Modelled from the spec: the `vault` package is not under `src/`; per the
spec, `TransactionType` is the enumerated kind of a transaction (Payment,
Transfer, Fee).  In the Go source it is a named string type with three
distinct constants; unrecognized values are possible (the `switch` in
`calculateSummary` has no default case), so we keep the underlying `String`
representation. -/
abbrev TransactionType := String

/-- Modelled from the spec: the `vault.PaymentTransaction` constant. -/
def PaymentTransaction : TransactionType := "payment"

/-- Modelled from the spec: the `vault.TransferTransaction` constant. -/
def TransferTransaction : TransactionType := "transfer"

/-- Modelled from the spec: the `vault.FeeTransaction` constant. -/
def FeeTransaction : TransactionType := "fee"

/-- A `Type` value is recognized when it is one of the three enumerated
transaction kinds. -/
def recognizedType (t : TransactionType) : Prop :=
  t = PaymentTransaction ∨ t = TransferTransaction ∨ t = FeeTransaction

instance : DecidablePred recognizedType := fun t => by
  unfold recognizedType; infer_instance

/-- Modelled from the spec: `vault.Transaction` is not under `src/`; per the
spec it carries an opaque identifier, the amount as the raw string read from
the CSV row, and the (already assigned, immutable) transaction type.
Additional descriptive fields are display-only and not part of any verified
statement, so they are omitted.  The Go field `Type` is spelled `Typ` because
`Type` is reserved in Lean. -/
structure Transaction where
  TransactionID : String
  Amount : String
  Typ : TransactionType
deriving DecidableEq, Repr

/-- `SummaryStats` from `src/handlers/bookkeeping.go` (lines 157-166; the copy
in `src/unnamed/part_000` lines 145-154 is identical). -/
structure SummaryStats where
  TotalTransactions : Nat
  TotalPayments : Nat
  TotalTransfers : Nat
  TotalFees : Nat
  PaymentsSum : ℚ
  TransfersSum : ℚ
  FeesSum : ℚ
  NetLiquidity : ℚ
deriving DecidableEq, Repr

/-! ## Model of `fmt.Sscanf(s, "%f", &x)` -/

/-- Numeric value of a list of decimal digit characters (most significant
first). -/
def digitsVal (ds : List Char) : Nat :=
  ds.foldl (fun n c => 10 * n + (c.toNat - 48)) 0

/-- The float token the Go `fmt` scanner extracts for a `%f` verb: optional
sign, run of digits, optional `.` plus run of digits, optional exponent
marker with optional sign and run of digits.  Everything after the token is
ignored by `Sscanf`. -/
structure FloatToken where
  neg : Bool
  intDigits : List Char
  fracDigits : List Char
  expPart : Option (Bool × List Char)
deriving DecidableEq, Repr

/-- Extract the float token from the input characters (leading spaces already
skipped).  Mirrors `fmt`'s `floatToken`: the exponent marker is consumed even
when no exponent digits follow, which later makes the token invalid. -/
def floatToken (cs : List Char) : FloatToken :=
  let (neg, cs1) :=
    match cs with
    | '-' :: rest => (true, rest)
    | '+' :: rest => (false, rest)
    | _ => (false, cs)
  let (intDs, cs2) := cs1.span Char.isDigit
  let (fracDs, cs3) :=
    match cs2 with
    | '.' :: rest =>
      let (ds, rest') := rest.span Char.isDigit
      (ds, rest')
    | _ => ([], cs2)
  let expPart :=
    match cs3 with
    | 'e' :: rest =>
      match rest with
      | '-' :: r2 => some (true, (r2.span Char.isDigit).1)
      | '+' :: r2 => some (false, (r2.span Char.isDigit).1)
      | _ => some (false, (rest.span Char.isDigit).1)
    | 'E' :: rest =>
      match rest with
      | '-' :: r2 => some (true, (r2.span Char.isDigit).1)
      | '+' :: r2 => some (false, (r2.span Char.isDigit).1)
      | _ => some (false, (rest.span Char.isDigit).1)
    | _ => none
  ⟨neg, intDs, fracDs, expPart⟩

/-- Convert a token to its rational value, or `none` when `strconv.ParseFloat`
would reject it (no mantissa digits at all, or an exponent marker with no
digits). -/
def tokenValue (t : FloatToken) : Option ℚ :=
  if t.intDigits = [] ∧ t.fracDigits = [] then none
  else
    match t.expPart with
    | some (_, []) => none
    | _ =>
      let mantissa : ℚ :=
        (digitsVal t.intDigits : ℚ) +
          (digitsVal t.fracDigits : ℚ) / ((10 : ℚ) ^ t.fracDigits.length)
      let scaled : ℚ :=
        match t.expPart with
        | none => mantissa
        | some (false, ds) => mantissa * (10 : ℚ) ^ digitsVal ds
        | some (true, ds) => mantissa / (10 : ℚ) ^ digitsVal ds
      some (if t.neg then -scaled else scaled)

/-- Model of `fmt.Sscanf(s, "%f", &x)`: skip leading white space, extract the
float token, parse it; `some v` is a successful scan assigning `v`, `none` is
a scan error (in which case Go leaves the destination variable untouched). -/
def sscanfFloat (s : String) : Option ℚ :=
  let cs := s.toList.dropWhile fun c => c = ' ' ∨ c = '\t' ∨ c = '\n' ∨ c = '\r'
  tokenValue (floatToken cs)

/-! ## `calculateSummary`, both supplied variants -/

/-- Loop body state transformation of `calculateSummary` from
`src/handlers/bookkeeping.go` (lines 174-193): parse the amount, explicitly
resetting it to `0.0` when `Sscanf` reports an error, then dispatch on the
transaction type (no default case). -/
def summaryLoop (stats : SummaryStats) : List Transaction → SummaryStats
  | [] => stats
  | txn :: rest =>
    let amount : ℚ :=
      match sscanfFloat txn.Amount with
      | some a => a
      | none => 0
    let stats' :=
      if txn.Typ = PaymentTransaction then
        { stats with TotalPayments := stats.TotalPayments + 1
                     PaymentsSum := stats.PaymentsSum + amount }
      else if txn.Typ = TransferTransaction then
        { stats with TotalTransfers := stats.TotalTransfers + 1
                     TransfersSum := stats.TransfersSum + amount }
      else if txn.Typ = FeeTransaction then
        { stats with TotalFees := stats.TotalFees + 1
                     FeesSum := stats.FeesSum + amount }
      else stats
    summaryLoop stats' rest

/-- `calculateSummary` from `src/handlers/bookkeeping.go` (lines 169-199):
start from zeroed stats with `TotalTransactions = len(transactions)`, run the
loop, then set `NetLiquidity` to the sum of the three category sums. -/
def calculateSummary (transactions : List Transaction) : SummaryStats :=
  let stats : SummaryStats :=
    { TotalTransactions := transactions.length
      TotalPayments := 0, TotalTransfers := 0, TotalFees := 0
      PaymentsSum := 0, TransfersSum := 0, FeesSum := 0, NetLiquidity := 0 }
  let s := summaryLoop stats transactions
  { s with NetLiquidity := s.PaymentsSum + s.TransfersSum + s.FeesSum }

/-- Loop body of the `calculateSummary` variant in `src/unnamed/part_000`
(lines 162-177): `amount` is the zero-initialised `var amount float64`, the
`Sscanf` result is ignored, so a failed scan leaves `amount` at `0`. -/
def summaryLoopAlt (stats : SummaryStats) : List Transaction → SummaryStats
  | [] => stats
  | txn :: rest =>
    let amount : ℚ := (sscanfFloat txn.Amount).getD 0
    let stats' :=
      if txn.Typ = PaymentTransaction then
        { stats with TotalPayments := stats.TotalPayments + 1
                     PaymentsSum := stats.PaymentsSum + amount }
      else if txn.Typ = TransferTransaction then
        { stats with TotalTransfers := stats.TotalTransfers + 1
                     TransfersSum := stats.TransfersSum + amount }
      else if txn.Typ = FeeTransaction then
        { stats with TotalFees := stats.TotalFees + 1
                     FeesSum := stats.FeesSum + amount }
      else stats
    summaryLoopAlt stats' rest

/-- `calculateSummary` from `src/unnamed/part_000` (lines 157-183). -/
def calculateSummaryAlt (transactions : List Transaction) : SummaryStats :=
  let stats : SummaryStats :=
    { TotalTransactions := transactions.length
      TotalPayments := 0, TotalTransfers := 0, TotalFees := 0
      PaymentsSum := 0, TransfersSum := 0, FeesSum := 0, NetLiquidity := 0 }
  let s := summaryLoopAlt stats transactions
  { s with NetLiquidity := s.PaymentsSum + s.TransfersSum + s.FeesSum }

/-! ## Specification-level descriptions of the aggregation -/

/-- The amount a transaction contributes to its type's sum: the parsed value,
or `0` when parsing fails. -/
def amountOf (x : Transaction) : ℚ :=
  (sscanfFloat x.Amount).getD 0

/-- Number of transactions of a given type in a list. -/
def countType (t : TransactionType) (ts : List Transaction) : Nat :=
  (ts.filter fun x => x.Typ = t).length

/-- Sum of the (soft-parsed) amounts of the transactions of a given type. -/
def sumType (t : TransactionType) (ts : List Transaction) : ℚ :=
  (ts.map fun x => if x.Typ = t then amountOf x else 0).sum

theorem countType_nil (t : TransactionType) : countType t [] = 0 := rfl

theorem sumType_nil (t : TransactionType) : sumType t [] = 0 := rfl

theorem countType_cons (t : TransactionType) (x : Transaction)
    (ts : List Transaction) :
    countType t (x :: ts) = (if x.Typ = t then 1 else 0) + countType t ts := by
  by_cases h : x.Typ = t <;> simp [countType, h] <;> omega

theorem sumType_cons (t : TransactionType) (x : Transaction)
    (ts : List Transaction) :
    sumType t (x :: ts) = (if x.Typ = t then amountOf x else 0) + sumType t ts := by
  by_cases h : x.Typ = t <;> simp [sumType, h]

theorem countType_append (t : TransactionType) (ts₁ ts₂ : List Transaction) :
    countType t (ts₁ ++ ts₂) = countType t ts₁ + countType t ts₂ := by
  simp [countType]

theorem sumType_append (t : TransactionType) (ts₁ ts₂ : List Transaction) :
    sumType t (ts₁ ++ ts₂) = sumType t ts₁ + sumType t ts₂ := by
  simp [sumType]

/-- The three transaction-type constants are pairwise distinct. -/
theorem pay_ne_transfer : PaymentTransaction ≠ TransferTransaction := by decide

theorem pay_ne_fee : PaymentTransaction ≠ FeeTransaction := by decide

theorem transfer_ne_pay : TransferTransaction ≠ PaymentTransaction := by decide

theorem transfer_ne_fee : TransferTransaction ≠ FeeTransaction := by decide

theorem fee_ne_pay : FeeTransaction ≠ PaymentTransaction := by decide

theorem fee_ne_transfer : FeeTransaction ≠ TransferTransaction := by decide

/-- Four-way case analysis on a transaction type: one of the three
recognized constants, or none of them. -/
theorem typ_cases (t : TransactionType) :
    t = PaymentTransaction ∨ t = TransferTransaction ∨ t = FeeTransaction ∨
      (t ≠ PaymentTransaction ∧ t ≠ TransferTransaction ∧ t ≠ FeeTransaction) := by
  by_cases h1 : t = PaymentTransaction
  · exact Or.inl h1
  by_cases h2 : t = TransferTransaction
  · exact Or.inr (Or.inl h2)
  by_cases h3 : t = FeeTransaction
  · exact Or.inr (Or.inr (Or.inl h3))
  exact Or.inr (Or.inr (Or.inr ⟨h1, h2, h3⟩))

/-! ### Characterisation of the `calculateSummary` loop

Each field of the accumulator is tracked separately through the loop. -/

theorem summaryLoop_TotalTransactions (ts : List Transaction) :
    ∀ stats : SummaryStats,
      (summaryLoop stats ts).TotalTransactions
        = stats.TotalTransactions := by
  induction ts with
  | nil => intro stats; simp [summaryLoop, countType_nil, sumType_nil]
  | cons txn rest ih =>
    intro stats
    rcases typ_cases txn.Typ with hp | ht | hf | ⟨h1, h2, h3⟩ <;>
      simp [summaryLoop, ih, pay_ne_transfer, pay_ne_fee, transfer_ne_pay, transfer_ne_fee, fee_ne_pay, fee_ne_transfer, amountOf, *] <;> try omega

theorem summaryLoop_NetLiquidity (ts : List Transaction) :
    ∀ stats : SummaryStats,
      (summaryLoop stats ts).NetLiquidity
        = stats.NetLiquidity := by
  induction ts with
  | nil => intro stats; simp [summaryLoop, countType_nil, sumType_nil]
  | cons txn rest ih =>
    intro stats
    rcases typ_cases txn.Typ with hp | ht | hf | ⟨h1, h2, h3⟩ <;>
      simp [summaryLoop, ih, pay_ne_transfer, pay_ne_fee, transfer_ne_pay, transfer_ne_fee, fee_ne_pay, fee_ne_transfer, amountOf, *] <;> try omega

theorem summaryLoop_TotalPayments (ts : List Transaction) :
    ∀ stats : SummaryStats,
      (summaryLoop stats ts).TotalPayments
        = stats.TotalPayments + countType PaymentTransaction ts := by
  induction ts with
  | nil => intro stats; simp [summaryLoop, countType_nil, sumType_nil]
  | cons txn rest ih =>
    intro stats
    rw [countType_cons]
    rcases typ_cases txn.Typ with hp | ht | hf | ⟨h1, h2, h3⟩ <;>
      simp [summaryLoop, ih, pay_ne_transfer, pay_ne_fee, transfer_ne_pay, transfer_ne_fee, fee_ne_pay, fee_ne_transfer, amountOf, *] <;> try omega

theorem summaryLoop_TotalTransfers (ts : List Transaction) :
    ∀ stats : SummaryStats,
      (summaryLoop stats ts).TotalTransfers
        = stats.TotalTransfers + countType TransferTransaction ts := by
  induction ts with
  | nil => intro stats; simp [summaryLoop, countType_nil, sumType_nil]
  | cons txn rest ih =>
    intro stats
    rw [countType_cons]
    rcases typ_cases txn.Typ with hp | ht | hf | ⟨h1, h2, h3⟩ <;>
      simp [summaryLoop, ih, pay_ne_transfer, pay_ne_fee, transfer_ne_pay, transfer_ne_fee, fee_ne_pay, fee_ne_transfer, amountOf, *] <;> try omega

theorem summaryLoop_TotalFees (ts : List Transaction) :
    ∀ stats : SummaryStats,
      (summaryLoop stats ts).TotalFees
        = stats.TotalFees + countType FeeTransaction ts := by
  induction ts with
  | nil => intro stats; simp [summaryLoop, countType_nil, sumType_nil]
  | cons txn rest ih =>
    intro stats
    rw [countType_cons]
    rcases typ_cases txn.Typ with hp | ht | hf | ⟨h1, h2, h3⟩ <;>
      simp [summaryLoop, ih, pay_ne_transfer, pay_ne_fee, transfer_ne_pay, transfer_ne_fee, fee_ne_pay, fee_ne_transfer, amountOf, *] <;> try omega

theorem summaryLoop_PaymentsSum (ts : List Transaction) :
    ∀ stats : SummaryStats,
      (summaryLoop stats ts).PaymentsSum
        = stats.PaymentsSum + sumType PaymentTransaction ts := by
  induction ts with
  | nil => intro stats; simp [summaryLoop, countType_nil, sumType_nil]
  | cons txn rest ih =>
    intro stats
    rw [sumType_cons]
    cases hA : sscanfFloat txn.Amount <;>
      rcases typ_cases txn.Typ with hp | ht | hf | ⟨h1, h2, h3⟩ <;>
      simp [summaryLoop, ih, pay_ne_transfer, pay_ne_fee, transfer_ne_pay, transfer_ne_fee, fee_ne_pay, fee_ne_transfer, amountOf, *] <;> try ring

theorem summaryLoop_TransfersSum (ts : List Transaction) :
    ∀ stats : SummaryStats,
      (summaryLoop stats ts).TransfersSum
        = stats.TransfersSum + sumType TransferTransaction ts := by
  induction ts with
  | nil => intro stats; simp [summaryLoop, countType_nil, sumType_nil]
  | cons txn rest ih =>
    intro stats
    rw [sumType_cons]
    cases hA : sscanfFloat txn.Amount <;>
      rcases typ_cases txn.Typ with hp | ht | hf | ⟨h1, h2, h3⟩ <;>
      simp [summaryLoop, ih, pay_ne_transfer, pay_ne_fee, transfer_ne_pay, transfer_ne_fee, fee_ne_pay, fee_ne_transfer, amountOf, *] <;> try ring

theorem summaryLoop_FeesSum (ts : List Transaction) :
    ∀ stats : SummaryStats,
      (summaryLoop stats ts).FeesSum
        = stats.FeesSum + sumType FeeTransaction ts := by
  induction ts with
  | nil => intro stats; simp [summaryLoop, countType_nil, sumType_nil]
  | cons txn rest ih =>
    intro stats
    rw [sumType_cons]
    cases hA : sscanfFloat txn.Amount <;>
      rcases typ_cases txn.Typ with hp | ht | hf | ⟨h1, h2, h3⟩ <;>
      simp [summaryLoop, ih, pay_ne_transfer, pay_ne_fee, transfer_ne_pay, transfer_ne_fee, fee_ne_pay, fee_ne_transfer, amountOf, *] <;> try ring

/-- Field-by-field description of `calculateSummary`. -/
theorem calculateSummary_TotalTransactions (ts : List Transaction) :
    (calculateSummary ts).TotalTransactions = ts.length := by
  simp [calculateSummary, summaryLoop_TotalTransactions]

theorem calculateSummary_TotalPayments (ts : List Transaction) :
    (calculateSummary ts).TotalPayments = countType PaymentTransaction ts := by
  simp [calculateSummary, summaryLoop_TotalPayments]

theorem calculateSummary_TotalTransfers (ts : List Transaction) :
    (calculateSummary ts).TotalTransfers = countType TransferTransaction ts := by
  simp [calculateSummary, summaryLoop_TotalTransfers]

theorem calculateSummary_TotalFees (ts : List Transaction) :
    (calculateSummary ts).TotalFees = countType FeeTransaction ts := by
  simp [calculateSummary, summaryLoop_TotalFees]

theorem calculateSummary_PaymentsSum (ts : List Transaction) :
    (calculateSummary ts).PaymentsSum = sumType PaymentTransaction ts := by
  simp [calculateSummary, summaryLoop_PaymentsSum]

theorem calculateSummary_TransfersSum (ts : List Transaction) :
    (calculateSummary ts).TransfersSum = sumType TransferTransaction ts := by
  simp [calculateSummary, summaryLoop_TransfersSum]

theorem calculateSummary_FeesSum (ts : List Transaction) :
    (calculateSummary ts).FeesSum = sumType FeeTransaction ts := by
  simp [calculateSummary, summaryLoop_FeesSum]

theorem calculateSummary_NetLiquidity (ts : List Transaction) :
    (calculateSummary ts).NetLiquidity
      = sumType PaymentTransaction ts + sumType TransferTransaction ts
        + sumType FeeTransaction ts := by
  simp [calculateSummary, summaryLoop_PaymentsSum, summaryLoop_TransfersSum,
    summaryLoop_FeesSum]

/-- The two loop variants compute the same accumulator: a failed scan leaves
the zero-initialised `amount` at `0`, which is exactly the explicit reset of
the other variant. -/
theorem summaryLoopAlt_eq_summaryLoop (ts : List Transaction) :
    ∀ stats : SummaryStats, summaryLoopAlt stats ts = summaryLoop stats ts := by
  induction ts with
  | nil => intro stats; rfl
  | cons txn rest ih =>
    intro stats
    cases hA : sscanfFloat txn.Amount <;>
      simp [summaryLoop, summaryLoopAlt, hA, ih]

/-- The three per-type counts sum to the length exactly when every element
has a recognized type: each element contributes `1` to the length and at most
`1` to the three counts, with equality exactly for recognized types. -/
theorem countType_three_sum_le (ts : List Transaction) :
    countType PaymentTransaction ts + countType TransferTransaction ts
      + countType FeeTransaction ts ≤ ts.length := by
  induction ts with
  | nil => simp [countType_nil]
  | cons x rest ih =>
    rw [countType_cons, countType_cons, countType_cons]
    rcases typ_cases x.Typ with hp | ht | hf | ⟨h1, h2, h3⟩ <;>
      simp [*, pay_ne_transfer, pay_ne_fee, transfer_ne_pay, transfer_ne_fee,
        fee_ne_pay, fee_ne_transfer] <;> omega

theorem countType_three_sum_iff (ts : List Transaction) :
    (countType PaymentTransaction ts + countType TransferTransaction ts
        + countType FeeTransaction ts = ts.length)
      ↔ ∀ txn ∈ ts, recognizedType txn.Typ := by
  induction ts with
  | nil => simp [countType_nil]
  | cons x rest ih =>
    have hle := countType_three_sum_le rest
    rw [countType_cons, countType_cons, countType_cons, List.forall_mem_cons,
      List.length_cons]
    rcases typ_cases x.Typ with hp | ht | hf | ⟨h1, h2, h3⟩
    · have hr : recognizedType x.Typ := Or.inl hp
      rw [if_pos hp, if_neg (by rw [hp]; exact pay_ne_transfer),
        if_neg (by rw [hp]; exact pay_ne_fee)]
      constructor
      · intro h; exact ⟨hr, ih.mp (by omega)⟩
      · intro h; have := ih.mpr h.2; omega
    · have hr : recognizedType x.Typ := Or.inr (Or.inl ht)
      rw [if_neg (by rw [ht]; exact transfer_ne_pay), if_pos ht,
        if_neg (by rw [ht]; exact transfer_ne_fee)]
      constructor
      · intro h; exact ⟨hr, ih.mp (by omega)⟩
      · intro h; have := ih.mpr h.2; omega
    · have hr : recognizedType x.Typ := Or.inr (Or.inr hf)
      rw [if_neg (by rw [hf]; exact fee_ne_pay),
        if_neg (by rw [hf]; exact fee_ne_transfer), if_pos hf]
      constructor
      · intro h; exact ⟨hr, ih.mp (by omega)⟩
      · intro h; have := ih.mpr h.2; omega
    · have hr : ¬ recognizedType x.Typ := by
        intro h
        rcases h with h | h | h
        exacts [h1 h, h2 h, h3 h]
      rw [if_neg h1, if_neg h2, if_neg h3]
      constructor
      · intro h; exact absurd h (by omega)
      · intro h; exact absurd h.1 hr

/-! ## Claim theorems on the aggregator -/

/-- C1: for every transaction list, the three per-type counts in the
`SummaryStats` returned by `calculateSummary` satisfy
`TotalPayments + TotalTransfers + TotalFees = TotalTransactions` if and only
if every transaction in the list has a recognized `Type` (Payment, Transfer,
or Fee). -/
theorem claim_C1_counts_sum_iff_recognized (ts : List Transaction) :
    ((calculateSummary ts).TotalPayments + (calculateSummary ts).TotalTransfers
        + (calculateSummary ts).TotalFees
      = (calculateSummary ts).TotalTransactions)
    ↔ ∀ txn ∈ ts, recognizedType txn.Typ := by
  rw [calculateSummary_TotalPayments, calculateSummary_TotalTransfers,
    calculateSummary_TotalFees, calculateSummary_TotalTransactions]
  exact countType_three_sum_iff ts

/-- C2: a transaction whose `Amount` fails to parse is still counted (it
increments `TotalTransactions` and, when its type is recognized, that type's
count) but contributes `0.0` to every sum, and its presence leaves the
aggregation of the remaining transactions unchanged. -/
theorem claim_C2_unparsable_counted_zero_contribution
    (ts₁ ts₂ : List Transaction) (t : Transaction)
    (h : sscanfFloat t.Amount = none) :
    (calculateSummary (ts₁ ++ t :: ts₂)).TotalTransactions
        = (calculateSummary (ts₁ ++ ts₂)).TotalTransactions + 1
    ∧ (calculateSummary (ts₁ ++ t :: ts₂)).PaymentsSum
        = (calculateSummary (ts₁ ++ ts₂)).PaymentsSum
    ∧ (calculateSummary (ts₁ ++ t :: ts₂)).TransfersSum
        = (calculateSummary (ts₁ ++ ts₂)).TransfersSum
    ∧ (calculateSummary (ts₁ ++ t :: ts₂)).FeesSum
        = (calculateSummary (ts₁ ++ ts₂)).FeesSum
    ∧ (calculateSummary (ts₁ ++ t :: ts₂)).NetLiquidity
        = (calculateSummary (ts₁ ++ ts₂)).NetLiquidity
    ∧ (t.Typ = PaymentTransaction →
        (calculateSummary (ts₁ ++ t :: ts₂)).TotalPayments
          = (calculateSummary (ts₁ ++ ts₂)).TotalPayments + 1)
    ∧ (t.Typ = TransferTransaction →
        (calculateSummary (ts₁ ++ t :: ts₂)).TotalTransfers
          = (calculateSummary (ts₁ ++ ts₂)).TotalTransfers + 1)
    ∧ (t.Typ = FeeTransaction →
        (calculateSummary (ts₁ ++ t :: ts₂)).TotalFees
          = (calculateSummary (ts₁ ++ ts₂)).TotalFees + 1) := by
  have hz : amountOf t = 0 := by simp [amountOf, h]
  refine ⟨?_, ?_, ?_, ?_, ?_, ?_, ?_, ?_⟩
  · simp [calculateSummary_TotalTransactions]; omega
  · simp [calculateSummary_PaymentsSum, sumType_append, sumType_cons, hz]
  · simp [calculateSummary_TransfersSum, sumType_append, sumType_cons, hz]
  · simp [calculateSummary_FeesSum, sumType_append, sumType_cons, hz]
  · simp [calculateSummary_NetLiquidity, sumType_append, sumType_cons, hz]
  · intro hty
    simp [calculateSummary_TotalPayments, countType_append, countType_cons, hty]
    omega
  · intro hty
    simp [calculateSummary_TotalTransfers, countType_append, countType_cons, hty]
    omega
  · intro hty
    simp [calculateSummary_TotalFees, countType_append, countType_cons, hty]
    omega

/-- C2 witness: a concrete instance — the unparsable `"abc"` transfer sitting
between two parsable transactions is counted (total and its type's count go
up by one) while all three sums, including its own type's, are unchanged. -/
theorem claim_C2_witness :
    (calculateSummary
        ([⟨"A", "1.00", PaymentTransaction⟩]
          ++ ⟨"B", "abc", TransferTransaction⟩
            :: [⟨"C", "3.00", FeeTransaction⟩])).TotalTransactions
      = (calculateSummary
          ([⟨"A", "1.00", PaymentTransaction⟩]
            ++ [⟨"C", "3.00", FeeTransaction⟩])).TotalTransactions + 1
    ∧ (calculateSummary
        ([⟨"A", "1.00", PaymentTransaction⟩]
          ++ ⟨"B", "abc", TransferTransaction⟩
            :: [⟨"C", "3.00", FeeTransaction⟩])).TransfersSum
      = (calculateSummary
          ([⟨"A", "1.00", PaymentTransaction⟩]
            ++ [⟨"C", "3.00", FeeTransaction⟩])).TransfersSum
    ∧ (calculateSummary
        ([⟨"A", "1.00", PaymentTransaction⟩]
          ++ ⟨"B", "abc", TransferTransaction⟩
            :: [⟨"C", "3.00", FeeTransaction⟩])).TotalTransfers
      = (calculateSummary
          ([⟨"A", "1.00", PaymentTransaction⟩]
            ++ [⟨"C", "3.00", FeeTransaction⟩])).TotalTransfers + 1 :=
  have h := claim_C2_unparsable_counted_zero_contribution
    [⟨"A", "1.00", PaymentTransaction⟩] [⟨"C", "3.00", FeeTransaction⟩]
    ⟨"B", "abc", TransferTransaction⟩ (by with_unfolding_all decide)
  ⟨h.1, h.2.2.1, h.2.2.2.2.2.2.1 rfl⟩

/-- C3: for every transaction list, `NetLiquidity` equals
`PaymentsSum + TransfersSum + FeesSum` exactly — no sign or offsetting logic
is applied to any of the three category sums. -/
theorem claim_C3_netLiquidity_is_plain_sum (ts : List Transaction) :
    (calculateSummary ts).NetLiquidity
      = (calculateSummary ts).PaymentsSum + (calculateSummary ts).TransfersSum
        + (calculateSummary ts).FeesSum := by
  rw [calculateSummary_NetLiquidity, calculateSummary_PaymentsSum,
    calculateSummary_TransfersSum, calculateSummary_FeesSum]

/-- C4: the concrete three-row scenario from the specification. -/
theorem claim_C4_scenario :
    calculateSummary
        [⟨"T1", "100.50", PaymentTransaction⟩,
         ⟨"T2", "2.00", FeeTransaction⟩,
         ⟨"T3", "oops", TransferTransaction⟩]
      = { TotalTransactions := 3, TotalPayments := 1, TotalTransfers := 1,
          TotalFees := 1, PaymentsSum := 100.50, TransfersSum := 0.0,
          FeesSum := 2.00, NetLiquidity := 102.50 } := by
  with_unfolding_all decide

/-- C10: the two supplied implementations of `calculateSummary` — the variant
checking the `Sscanf` result and explicitly resetting an unparsed amount to
`0.0`, and the variant ignoring the result and relying on the
zero-initialised variable — return equal `SummaryStats` on every transaction
list. -/
theorem claim_C10_variants_agree (ts : List Transaction) :
    calculateSummary ts = calculateSummaryAlt ts := by
  simp [calculateSummary, calculateSummaryAlt, summaryLoopAlt_eq_summaryLoop]

/-! ## Categorizer (`vault.CategorizeTransactions`) -/

/-- Modelled from the spec: `vault.CategorizeTransactions` is not under
`src/`; per the spec it partitions an already-classified list into a mapping
from `TransactionType` to the ordered sub-list of transactions of that type,
side-effect free, never dropping or reordering.  The mapping is modelled as a
function from the type to its sub-list; a type absent from the input maps to
`[]` (the "absent or empty entry"). -/
def CategorizeTransactions (transactions : List Transaction)
    (t : TransactionType) : List Transaction :=
  transactions.filter fun txn => txn.Typ = t

/-- One step of categorization. -/
theorem CategorizeTransactions_cons (x : Transaction) (ts : List Transaction)
    (t : TransactionType) :
    CategorizeTransactions (x :: ts) t
      = if x.Typ = t then x :: CategorizeTransactions ts t
        else CategorizeTransactions ts t := by
  by_cases h : x.Typ = t <;> simp [CategorizeTransactions, h]

/-- Flattening the three category sub-lists in the order Payments, Transfers,
Fees is a permutation of the input whenever every input type is recognized. -/
theorem categorize_flatten_perm (ts : List Transaction)
    (h : ∀ txn ∈ ts, recognizedType txn.Typ) :
    (CategorizeTransactions ts PaymentTransaction
      ++ CategorizeTransactions ts TransferTransaction
      ++ CategorizeTransactions ts FeeTransaction).Perm ts := by
  induction ts with
  | nil => simp [CategorizeTransactions]
  | cons x rest ih =>
    have hx := h x (List.mem_cons_self x rest)
    have ihA := ih fun txn hm => h txn (List.mem_cons_of_mem x hm)
    have ihR := ihA
    rw [List.append_assoc] at ihR
    rcases hx with hp | ht | hf
    · rw [CategorizeTransactions_cons, CategorizeTransactions_cons,
        CategorizeTransactions_cons, if_pos hp,
        if_neg fun hh => pay_ne_transfer (hp.symm.trans hh),
        if_neg fun hh => pay_ne_fee (hp.symm.trans hh)]
      simp only [List.cons_append, List.append_assoc]
      exact ihR.cons x
    · rw [CategorizeTransactions_cons, CategorizeTransactions_cons,
        CategorizeTransactions_cons, if_pos ht,
        if_neg fun hh => transfer_ne_pay (ht.symm.trans hh),
        if_neg fun hh => transfer_ne_fee (ht.symm.trans hh)]
      simp only [List.cons_append, List.append_assoc]
      exact List.perm_middle.trans (ihR.cons x)
    · rw [CategorizeTransactions_cons, CategorizeTransactions_cons,
        CategorizeTransactions_cons, if_pos hf,
        if_neg fun hh => fee_ne_pay (hf.symm.trans hh),
        if_neg fun hh => fee_ne_transfer (hf.symm.trans hh)]
      simp only [List.cons_append, List.append_assoc]
      rw [← List.append_assoc]
      exact List.perm_middle.trans (ihA.cons x)

/-- C6: for every already-classified transaction list, categorization is a
partition: flattening the category sub-lists in the order Payments,
Transfers, Fees reproduces exactly the input transactions (a permutation —
no loss, no duplication), each sub-list preserves the relative source order
(it is a sublist of the input), and a type with no matching transaction
yields the empty list rather than an error. -/
theorem claim_C6_categorize_partition (ts : List Transaction)
    (h : ∀ txn ∈ ts, recognizedType txn.Typ) :
    (CategorizeTransactions ts PaymentTransaction
        ++ CategorizeTransactions ts TransferTransaction
        ++ CategorizeTransactions ts FeeTransaction).Perm ts
    ∧ (∀ t, List.Sublist (CategorizeTransactions ts t) ts)
    ∧ (∀ t, (∀ txn ∈ ts, txn.Typ ≠ t) → CategorizeTransactions ts t = []) := by
  refine ⟨categorize_flatten_perm ts h, fun t => List.filter_sublist ts, ?_⟩
  intro t hnone
  rw [CategorizeTransactions, List.filter_eq_nil_iff]
  intro txn hm
  simpa using hnone txn hm

/-- Sample list used to witness C6: two payments and a transfer, no fee. -/
def sampleTransactions : List Transaction :=
  [⟨"a", "1.00", PaymentTransaction⟩,
   ⟨"b", "2.00", TransferTransaction⟩,
   ⟨"c", "3.00", PaymentTransaction⟩]

/-- C6 witness: the partition property at a concrete list whose types are all
recognized and which contains no fee transaction. -/
theorem claim_C6_witness :
    (CategorizeTransactions sampleTransactions PaymentTransaction
        ++ CategorizeTransactions sampleTransactions TransferTransaction
        ++ CategorizeTransactions sampleTransactions FeeTransaction).Perm
      sampleTransactions
    ∧ (∀ t, List.Sublist
        (CategorizeTransactions sampleTransactions t) sampleTransactions)
    ∧ (∀ t, (∀ txn ∈ sampleTransactions, txn.Typ ≠ t) →
        CategorizeTransactions sampleTransactions t = []) :=
  claim_C6_categorize_partition sampleTransactions (by decide)

/-! ## Ledger Writer (`vault.Run`) -/

/-- Modelled from the spec: `vault.Run` is not under `src/`.  Per the spec it
orchestrates ingestion and aggregation over the current vault contents and
persists a canonical human-readable markdown snapshot.  The exact document
schema is not fixed by the spec; what matters is that it is a deterministic
function of the vault contents alone. -/
def renderSnapshot (transactions : List Transaction) : String :=
  let summary := calculateSummary transactions
  "# FK Master Ledger\n\n"
    ++ "Total transactions: " ++ toString summary.TotalTransactions ++ "\n"
    ++ "Payments: " ++ toString summary.TotalPayments ++ "\n"
    ++ "Transfers: " ++ toString summary.TotalTransfers ++ "\n"
    ++ "Fees: " ++ toString summary.TotalFees ++ "\n"

/-- Modelled from the spec: `vault.Run(vaultDir, ledgerDir)` computes the
full snapshot from the vault contents and fully replaces any prior snapshot
file (never appends).  The vault directory is modelled by the transaction
list read from it, the ledger directory state by the prior snapshot content
(`none` = no snapshot file yet); the result is the snapshot file content
after the run. -/
def Run (vaultContents : List Transaction)
    (priorSnapshot : Option String) : String :=
  renderSnapshot vaultContents

/-- C5: `Run` is idempotent and fully replacing — running it twice against an
unchanged vault produces a byte-identical snapshot, and the produced snapshot
does not depend on any prior snapshot state, so no stale entries from earlier
runs can remain in the output. -/
theorem claim_C5_run_idempotent_full_replace
    (vaultContents : List Transaction) (prior other : Option String) :
    Run vaultContents (some (Run vaultContents prior)) = Run vaultContents prior
    ∧ Run vaultContents prior = Run vaultContents other :=
  ⟨rfl, rfl⟩

/-! ## Display path: `markdownToHTML` and `LedgerHandler` -/

/-- Model of one step of Go `html.EscapeString`: the five special characters
are replaced by their HTML entities, every other character is kept.  The
replacer patterns in the Go source are all single characters, so the whole
function is character-by-character substitution; `Char.ofNat 39` is the
apostrophe. -/
def escapeChar (c : Char) : List Char :=
  if c = '&' then "&amp;".toList
  else if c = Char.ofNat 39 then "&#39;".toList
  else if c = '<' then "&lt;".toList
  else if c = '>' then "&gt;".toList
  else if c = '"' then "&#34;".toList
  else [c]

def escapeList : List Char → List Char
  | [] => []
  | c :: cs => escapeChar c ++ escapeList cs

/-- Model of Go `html.EscapeString`. -/
def EscapeString (s : String) : String :=
  ⟨escapeList s.toList⟩

/-- `markdownToHTML` from `src/handlers/bookkeeping.go` (lines 259-264):
escape the markdown and wrap it in the fixed `div`. -/
def markdownToHTML (md : String) : String :=
  let escaped := EscapeString md
  "<div class=\"ledger-content\">" ++ escaped ++ "</div>"

/-- A single escaped character never yields raw markup characters
(`Char.ofNat 39` is the apostrophe, `Char.ofNat 34` the double quote). -/
theorem escapeChar_no_markup (d : Char) :
    ∀ c ∈ escapeChar d,
      c ≠ '<' ∧ c ≠ '>' ∧ c ≠ '"' ∧ c ≠ Char.ofNat 39 := by
  intro c hc
  rw [escapeChar] at hc
  by_cases h1 : d = '&'
  · rw [if_pos h1] at hc
    exact (by decide :
      ∀ x ∈ "&amp;".toList,
        x ≠ '<' ∧ x ≠ '>' ∧ x ≠ '"' ∧ x ≠ Char.ofNat 39) c hc
  rw [if_neg h1] at hc
  by_cases h2 : d = Char.ofNat 39
  · rw [if_pos h2] at hc
    exact (by decide :
      ∀ x ∈ "&#39;".toList,
        x ≠ '<' ∧ x ≠ '>' ∧ x ≠ '"' ∧ x ≠ Char.ofNat 39) c hc
  rw [if_neg h2] at hc
  by_cases h3 : d = '<'
  · rw [if_pos h3] at hc
    exact (by decide :
      ∀ x ∈ "&lt;".toList,
        x ≠ '<' ∧ x ≠ '>' ∧ x ≠ '"' ∧ x ≠ Char.ofNat 39) c hc
  rw [if_neg h3] at hc
  by_cases h4 : d = '>'
  · rw [if_pos h4] at hc
    exact (by decide :
      ∀ x ∈ "&gt;".toList,
        x ≠ '<' ∧ x ≠ '>' ∧ x ≠ '"' ∧ x ≠ Char.ofNat 39) c hc
  rw [if_neg h4] at hc
  by_cases h5 : d = '"'
  · rw [if_pos h5] at hc
    exact (by decide :
      ∀ x ∈ "&#34;".toList,
        x ≠ '<' ∧ x ≠ '>' ∧ x ≠ '"' ∧ x ≠ Char.ofNat 39) c hc
  rw [if_neg h5] at hc
  have hcd : c = d := by simpa using hc
  subst hcd
  exact ⟨h3, h4, h5, h2⟩

/-- Characters produced by escaping a whole document never include raw
markup characters. -/
theorem escapeList_no_markup (cs : List Char) :
    ∀ c ∈ escapeList cs,
      c ≠ '<' ∧ c ≠ '>' ∧ c ≠ '"' ∧ c ≠ Char.ofNat 39 := by
  induction cs with
  | nil => simp [escapeList]
  | cons d rest ih =>
    intro c hc
    rw [escapeList] at hc
    rcases List.mem_append.mp hc with h | h
    · exact escapeChar_no_markup d c h
    · exact ih c h

/-- C8: the display path HTML-escapes the ledger document before embedding:
`markdownToHTML` returns exactly the fixed wrapper around the escaped input,
and the escaped content contains no unescaped markup characters (no `<`,
`>`, `"` or apostrophe survives escaping). -/
theorem claim_C8_markdownToHTML_escapes (md : String) :
    markdownToHTML md
      = "<div class=\"ledger-content\">" ++ EscapeString md ++ "</div>"
    ∧ ∀ c ∈ (EscapeString md).toList,
        c ≠ '<' ∧ c ≠ '>' ∧ c ≠ '"' ∧ c ≠ Char.ofNat 39 := by
  refine ⟨rfl, ?_⟩
  intro c hc
  exact escapeList_no_markup md.toList c hc

/-- The error cases of `os.ReadFile` as far as `LedgerHandler` can observe
them: the file is absent, or the read fails hard (permission denied or any
other I/O failure). -/
inductive ReadFileError where
  | notExist
  | permissionDenied
  | otherFailure (msg : String)
deriving DecidableEq, Repr

/-- The observable response of the ledger display handler: a rendered page
carrying the ledger HTML, or an HTTP error status. -/
inductive HandlerResponse where
  | page (ledgerContent : String)
  | httpError (status : Nat) (msg : String)
deriving DecidableEq, Repr

/-- The placeholder document substituted by `LedgerHandler`
(`src/handlers/bookkeeping.go` line 239). -/
def noLedgerPlaceholder : String :=
  "# No Ledger Available\n\nNo ledger data has been generated yet."

/-- `LedgerHandler` from `src/handlers/bookkeeping.go` (lines 232-255): read
the snapshot file; on a read error — the branch tests `err != nil`, not
specifically absence — log and substitute the placeholder document; then
load the template (on failure answer HTTP 500) and render the escaped
content into the page.  The file-system read and the template load are the
handler's two external inputs and are passed as parameters. -/
def LedgerHandler (readResult : Except ReadFileError String)
    (templateOk : Bool) : HandlerResponse :=
  let content : String :=
    match readResult with
    | Except.ok c => c
    | Except.error _ => noLedgerPlaceholder
  if templateOk then
    HandlerResponse.page (markdownToHTML content)
  else
    HandlerResponse.httpError 500 "could not get ledger template"

/-- C7 counterexample: a hard read error (permission denied) produces exactly
the placeholder page — byte-identical to the response for an absent file —
rather than any distinct failure indication, contradicting the claim that a
hard read error is surfaced as a failure distinct from the placeholder. -/
theorem claim_C7_counterexample :
    LedgerHandler (Except.error ReadFileError.permissionDenied) true
      = HandlerResponse.page (markdownToHTML noLedgerPlaceholder)
    ∧ LedgerHandler (Except.error ReadFileError.permissionDenied) true
      = LedgerHandler (Except.error ReadFileError.notExist) true :=
  ⟨rfl, rfl⟩

/-- C7 (amended): when the snapshot file is absent the handler renders the
explicit "no data yet" placeholder rather than a failure; however, a hard
read error is not distinguished — every read error, absence or not, renders
that same placeholder page (only a log line records the error). -/
theorem claim_C7_amended_every_read_error_renders_placeholder
    (e : ReadFileError) :
    LedgerHandler (Except.error e) true
      = HandlerResponse.page (markdownToHTML noLedgerPlaceholder)
    ∧ LedgerHandler (Except.error e) true
      = LedgerHandler (Except.error ReadFileError.notExist) true :=
  ⟨rfl, rfl⟩

/-! ## Path resolution: models of `path/filepath` and the two
`getEnvOrDefault` variants -/

/-- Model of Go `path/filepath.IsAbs` on Unix: the path starts with `/`. -/
def isAbsPath (p : String) : Bool :=
  match p.toList with
  | [] => false
  | c :: _ => c = '/'

/-- Decompose a character list at every `/`: the element decomposition of a
path.  Go `Clean` scans the byte string between separators; this is the same
decomposition made explicit. -/
def splitSlash : List Char → List (List Char)
  | [] => [[]]
  | c :: cs =>
    if c = '/' then [] :: splitSlash cs
    else
      match splitSlash cs with
      | [] => [[c]]
      | p :: ps => (c :: p) :: ps

/-- Rebuild a character list from path elements with `/` separators
(inverse of `splitSlash`). -/
def joinSlash : List (List Char) → List Char
  | [] => []
  | [p] => p
  | p :: ps => p ++ ('/' :: joinSlash ps)

/-- The element loop of Go `path/filepath.Clean` (Unix rules): empty
elements and `.` are dropped; `..` cancels the preceding kept element, is
dropped at the root, and is kept at the head of a relative path; every other
element is kept.  `out` is the stack of kept elements, most recent first. -/
def cleanElems (rooted : Bool) :
    List (List Char) → List (List Char) → List (List Char)
  | out, [] => out.reverse
  | out, e :: rest =>
    if e = [] ∨ e = ['.'] then cleanElems rooted out rest
    else if e = ['.', '.'] then
      match out with
      | [] =>
        if rooted then cleanElems rooted [] rest
        else cleanElems rooted [e] rest
      | top :: outRest =>
        if top = ['.', '.'] then cleanElems rooted (e :: top :: outRest) rest
        else cleanElems rooted outRest rest
    else cleanElems rooted (e :: out) rest

/-- Model of Go `path/filepath.Clean` (Unix): the empty path cleans to `.`,
otherwise the element loop runs over the separator decomposition and the
path is rebuilt — a rooted result gets its leading `/` back, an empty
relative result becomes `.`. -/
def Clean (path : String) : String :=
  if path = "" then "."
  else if isAbsPath path then
    String.mk ('/' :: joinSlash (cleanElems true [] (splitSlash path.toList)))
  else if joinSlash (cleanElems false [] (splitSlash path.toList)) = [] then
    "."
  else
    String.mk (joinSlash (cleanElems false [] (splitSlash path.toList)))

/-- Model of Go `path/filepath.Abs`: an absolute path is just cleaned; a
relative one is joined onto the working directory (`filepath.Join` cleans
the separator-concatenation).  `os.Getwd` is modelled by the `cwd`
parameter and assumed to succeed — its failure is the only error path of
`Abs`. -/
def Abs (cwd path : String) : String :=
  if isAbsPath path then Clean path
  else Clean (cwd ++ "/" ++ path)

/-- `getEnvOrDefault` from `src/handlers/bookkeeping.go` (lines 203-219):
both the value of a set environment variable and the fallback default are
sanitised with `filepath.Abs(filepath.Clean(...))`.  The environment lookup
is modelled by the `value` parameter — `""` means unset, matching
`os.Getenv`, whose empty result is indistinguishable from an unset
variable. -/
def getEnvOrDefault (cwd value defaultValue : String) : String :=
  if value = "" then Abs cwd (Clean defaultValue)
  else Abs cwd (Clean value)

/-- `getEnvOrDefault` from `src/unnamed/part_000` (lines 192-202): when the
variable is unset the default is made absolute; when it is set, the value is
returned unmodified — no `Clean`, no `Abs`. -/
def getEnvOrDefaultAlt (cwd value defaultValue : String) : String :=
  if value = "" then Abs cwd defaultValue
  else value

/-! ### Rootedness lemmas -/

theorem string_mk_ne_empty (l : List Char) (h : l ≠ []) : String.mk l ≠ "" :=
  fun he => h (congrArg String.data he)

theorem toList_ne_nil_of_ne_empty (s : String) (h : s ≠ "") :
    s.toList ≠ [] :=
  fun he => h (String.ext he)

theorem isAbsPath_mk_slash (l : List Char) :
    isAbsPath (String.mk ('/' :: l)) = true := by
  simp [isAbsPath]

theorem isAbsPath_append (a b : String) (h : isAbsPath a = true) :
    isAbsPath (a ++ b) = true := by
  unfold isAbsPath at h ⊢
  rw [show (a ++ b).toList = a.toList ++ b.toList from String.data_append a b]
  cases ha : a.toList with
  | nil => rw [ha] at h; simp at h
  | cons c t => rw [ha] at h; simpa using h

theorem ne_empty_of_isAbsPath (p : String) (h : isAbsPath p = true) :
    p ≠ "" := by
  intro he
  subst he
  simp [isAbsPath] at h

theorem isAbsPath_Clean (p : String) (h : isAbsPath p = true) :
    isAbsPath (Clean p) = true := by
  rw [Clean, if_neg (ne_empty_of_isAbsPath p h), if_pos h]
  exact isAbsPath_mk_slash _

theorem isAbsPath_Abs (cwd p : String) (h : isAbsPath cwd = true) :
    isAbsPath (Abs cwd p) = true := by
  rw [Abs]
  by_cases hp : isAbsPath p = true
  · rw [if_pos hp]
    exact isAbsPath_Clean p hp
  · rw [if_neg hp]
    exact isAbsPath_Clean _ (isAbsPath_append _ _ (isAbsPath_append _ _ h))

/-! ### Split / join round trip -/

theorem splitSlash_ne_nil (cs : List Char) : splitSlash cs ≠ [] := by
  induction cs with
  | nil => simp [splitSlash]
  | cons c cs ih =>
    rw [splitSlash]
    by_cases h : c = '/'
    · simp [h]
    · rw [if_neg h]
      cases hs : splitSlash cs with
      | nil => simp
      | cons p ps => simp

theorem splitSlash_no_slash (cs : List Char) :
    ∀ p ∈ splitSlash cs, '/' ∉ p := by
  induction cs with
  | nil =>
    intro p hp
    rw [splitSlash, List.mem_singleton] at hp
    subst hp
    simp
  | cons c cs ih =>
    intro p hp
    rw [splitSlash] at hp
    by_cases h : c = '/'
    · rw [if_pos h] at hp
      rcases List.mem_cons.mp hp with h1 | h1
      · subst h1; simp
      · exact ih p h1
    · rw [if_neg h] at hp
      cases hs : splitSlash cs with
      | nil => exact absurd hs (splitSlash_ne_nil cs)
      | cons q qs =>
        rw [hs] at hp
        rcases List.mem_cons.mp hp with h1 | h1
        · subst h1
          intro hin
          rcases List.mem_cons.mp hin with h2 | h2
          · exact h h2.symm
          · exact ih q (hs ▸ List.mem_cons_self q qs) h2
        · exact ih p (hs ▸ List.mem_cons_of_mem q h1)

theorem splitSlash_single (p : List Char) (h : '/' ∉ p) :
    splitSlash p = [p] := by
  induction p with
  | nil => rfl
  | cons c cs ih =>
    have hc : c ≠ '/' := fun he => h (by rw [he]; exact List.mem_cons_self _ _)
    have hcs : '/' ∉ cs := fun hin => h (List.mem_cons_of_mem c hin)
    rw [splitSlash, if_neg hc, ih hcs]

theorem splitSlash_append (p t : List Char) (h : '/' ∉ p) :
    splitSlash (p ++ '/' :: t) = p :: splitSlash t := by
  induction p with
  | nil => simp [splitSlash]
  | cons c cs ih =>
    have hc : c ≠ '/' := fun he => h (by rw [he]; exact List.mem_cons_self _ _)
    have hcs : '/' ∉ cs := fun hin => h (List.mem_cons_of_mem c hin)
    rw [List.cons_append, splitSlash, if_neg hc, ih hcs]

theorem splitSlash_joinSlash (ps : List (List Char)) (hne : ps ≠ [])
    (h : ∀ p ∈ ps, '/' ∉ p) : splitSlash (joinSlash ps) = ps := by
  induction ps with
  | nil => exact absurd rfl hne
  | cons p qs ih =>
    cases qs with
    | nil =>
      rw [joinSlash]
      exact splitSlash_single p (h p (List.mem_cons_self _ _))
    | cons q rs =>
      rw [joinSlash, splitSlash_append p _ (h p (List.mem_cons_self _ _)),
        ih (List.cons_ne_nil q rs) fun r hr => h r (List.mem_cons_of_mem p hr)]
      exact fun hh => List.noConfusion hh

/-! ### The element loop keeps already-clean element lists unchanged -/

theorem cleanElems_normals (rooted : Bool) (ms : List (List Char))
    (h : ∀ e ∈ ms, e ≠ [] ∧ e ≠ ['.'] ∧ e ≠ ['.', '.']) :
    ∀ out, cleanElems rooted out ms = out.reverse ++ ms := by
  induction ms with
  | nil =>
    intro out
    rw [List.append_nil]
    rfl
  | cons e ms ih =>
    intro out
    obtain ⟨h1, h2, h3⟩ := h e (List.mem_cons_self _ _)
    simp only [cleanElems]
    rw [if_neg (by simp [h1, h2]), if_neg h3,
      ih (fun x hx => h x (List.mem_cons_of_mem e hx)) (e :: out)]
    simp

theorem cleanElems_dotdots (ms : List (List Char))
    (h : ∀ e ∈ ms, e ≠ [] ∧ e ≠ ['.'] ∧ e ≠ ['.', '.']) :
    ∀ k i, cleanElems false (List.replicate i ['.', '.'])
        (List.replicate k ['.', '.'] ++ ms)
      = List.replicate (i + k) ['.', '.'] ++ ms := by
  intro k
  induction k with
  | zero =>
    intro i
    rw [List.replicate_zero, List.nil_append, Nat.add_zero,
      cleanElems_normals false ms h (List.replicate i (['.', '.']))]
    rw [List.reverse_replicate]
  | succ k ih =>
    intro i
    rw [List.replicate_succ, List.cons_append]
    cases i with
    | zero =>
      rw [List.replicate_zero]
      show cleanElems false [['.', '.']] (List.replicate k ['.', '.'] ++ ms)
        = List.replicate (0 + (k + 1)) ['.', '.'] ++ ms
      have h1 : [['.', '.']] = List.replicate 1 (['.', '.'] : List Char) := rfl
      rw [h1, ih 1, show 1 + k = 0 + (k + 1) from by omega]
    | succ j =>
      rw [List.replicate_succ]
      show cleanElems false
          (['.', '.'] :: ['.', '.'] :: List.replicate j ['.', '.'])
          (List.replicate k ['.', '.'] ++ ms)
        = List.replicate (j + 1 + (k + 1)) ['.', '.'] ++ ms
      have h1 : ['.', '.'] :: ['.', '.'] :: List.replicate j ['.', '.']
          = List.replicate (j + 2) (['.', '.'] : List Char) := rfl
      rw [h1, ih (j + 2), show j + 2 + k = j + 1 + (k + 1) from by omega]

/-! ### Single steps of the element loop -/

theorem cleanElems_skip (rooted : Bool) (out : List (List Char))
    (e : List Char) (rest : List (List Char)) (h : e = [] ∨ e = ['.']) :
    cleanElems rooted out (e :: rest) = cleanElems rooted out rest := by
  simp only [cleanElems]
  rw [if_pos h]

theorem cleanElems_push (rooted : Bool) (out : List (List Char))
    (e : List Char) (rest : List (List Char))
    (h1 : ¬(e = [] ∨ e = ['.'])) (h2 : e ≠ ['.', '.']) :
    cleanElems rooted out (e :: rest) = cleanElems rooted (e :: out) rest := by
  simp only [cleanElems]
  rw [if_neg h1, if_neg h2]

theorem cleanElems_dot2_nil_rooted (rest : List (List Char)) :
    cleanElems true [] (['.', '.'] :: rest) = cleanElems true [] rest := rfl

theorem cleanElems_dot2_nil_rel (rest : List (List Char)) :
    cleanElems false [] (['.', '.'] :: rest)
      = cleanElems false [['.', '.']] rest := rfl

theorem cleanElems_dot2_top (rooted : Bool) (outRest rest : List (List Char)) :
    cleanElems rooted (['.', '.'] :: outRest) (['.', '.'] :: rest)
      = cleanElems rooted (['.', '.'] :: ['.', '.'] :: outRest) rest := rfl

theorem cleanElems_dot2_pop (rooted : Bool) (top : List Char)
    (outRest rest : List (List Char)) (h : top ≠ ['.', '.']) :
    cleanElems rooted (top :: outRest) (['.', '.'] :: rest)
      = cleanElems rooted outRest rest := by
  simp only [cleanElems]
  rw [if_pos trivial, if_neg h, if_neg (by decide)]

/-- The element loop always produces a cleaned element list: some leading
`..` elements (none when rooted) followed by ordinary elements — never
empty, `.`, `..`, or containing a separator. -/
theorem cleanElems_spec (rooted : Bool) (elems : List (List Char)) :
    (∀ e ∈ elems, '/' ∉ e) →
    ∀ ns k, (∀ e ∈ ns, e ≠ [] ∧ e ≠ ['.'] ∧ e ≠ ['.', '.'] ∧ '/' ∉ e) →
      (rooted = true → k = 0) →
      ∃ j ms, cleanElems rooted (ns ++ List.replicate k ['.', '.']) elems
          = List.replicate j ['.', '.'] ++ ms
        ∧ (∀ e ∈ ms, e ≠ [] ∧ e ≠ ['.'] ∧ e ≠ ['.', '.'] ∧ '/' ∉ e)
        ∧ (rooted = true → j = 0) := by
  induction elems with
  | nil =>
    intro _ ns k hns hk
    refine ⟨k, ns.reverse, ?_, ?_, hk⟩
    · show (ns ++ List.replicate k ['.', '.']).reverse = _
      rw [List.reverse_append, List.reverse_replicate]
    · intro e he
      exact hns e (List.mem_reverse.mp he)
  | cons e rest ih =>
    intro helems ns k hns hk
    have hrest : ∀ x ∈ rest, '/' ∉ x :=
      fun x hx => helems x (List.mem_cons_of_mem e hx)
    have heslash : '/' ∉ e := helems e (List.mem_cons_self _ _)
    by_cases h1 : e = [] ∨ e = ['.']
    · rw [cleanElems_skip rooted _ e rest h1]
      exact ih hrest ns k hns hk
    by_cases h2 : e = ['.', '.']
    · subst h2
      cases ns with
      | cons n ns' =>
        have hn := hns n (List.mem_cons_self _ _)
        rw [List.cons_append, cleanElems_dot2_pop rooted n _ rest hn.2.2.1]
        exact ih hrest ns' k
          (fun x hx => hns x (List.mem_cons_of_mem n hx)) hk
      | nil =>
        rw [List.nil_append]
        by_cases hr : rooted = true
        · subst hr
          rw [hk rfl, List.replicate_zero, cleanElems_dot2_nil_rooted rest]
          obtain ⟨j, ms, heq, hms, hj⟩ :=
            ih hrest [] 0 (fun x hx => absurd hx (List.not_mem_nil x))
              fun _ => rfl
          simp only [List.nil_append, List.replicate_zero] at heq
          exact ⟨j, ms, heq, hms, hj⟩
        · have hrf : rooted = false := by
            cases rooted
            · rfl
            · exact absurd rfl hr
          subst hrf
          cases k with
          | zero =>
            rw [List.replicate_zero, cleanElems_dot2_nil_rel rest]
            obtain ⟨j, ms, heq, hms, hj⟩ :=
              ih hrest [] 1 (fun x hx => absurd hx (List.not_mem_nil x))
                fun habs => absurd habs Bool.false_ne_true
            simp only [List.nil_append] at heq
            rw [show List.replicate 1 (['.', '.'] : List Char) = [['.', '.']]
              from rfl] at heq
            exact ⟨j, ms, heq, hms, fun habs => absurd habs Bool.false_ne_true⟩
          | succ m =>
            rw [List.replicate_succ,
              cleanElems_dot2_top false (List.replicate m ['.', '.']) rest]
            obtain ⟨j, ms, heq, hms, hj⟩ :=
              ih hrest [] (m + 2) (fun x hx => absurd hx (List.not_mem_nil x))
                fun habs => absurd habs Bool.false_ne_true
            simp only [List.nil_append] at heq
            rw [show List.replicate (m + 2) (['.', '.'] : List Char)
              = ['.', '.'] :: ['.', '.'] :: List.replicate m ['.', '.']
              from rfl] at heq
            exact ⟨j, ms, heq, hms, fun habs => absurd habs Bool.false_ne_true⟩
    · rw [cleanElems_push rooted _ e rest h1 h2,
        show e :: (ns ++ List.replicate k ['.', '.'])
          = (e :: ns) ++ List.replicate k ['.', '.'] from rfl]
      refine ih hrest (e :: ns) k ?_ hk
      intro x hx
      rcases List.mem_cons.mp hx with h | h
      · subst h
        exact ⟨fun he => h1 (Or.inl he), fun he => h1 (Or.inr he), h2, heslash⟩
      · exact hns x h

/-! ### Idempotence of `Clean` -/

theorem splitSlash_slash_cons (x : List Char) :
    splitSlash ('/' :: x) = [] :: splitSlash x := by
  rw [splitSlash, if_pos rfl]

theorem joinSlash_head (e : List Char) (rest : List (List Char)) (c : Char)
    (t : List Char) (he : e = c :: t) :
    ∃ u, joinSlash (e :: rest) = c :: u := by
  cases rest with
  | nil => exact ⟨t, by rw [joinSlash, he]⟩
  | cons q rs =>
    refine ⟨t ++ '/' :: joinSlash (q :: rs), ?_⟩
    rw [show joinSlash (e :: q :: rs) = e ++ '/' :: joinSlash (q :: rs)
      from rfl, he, List.cons_append]

theorem isAbsPath_joined_false (e : List Char) (rest : List (List Char))
    (hne : e ≠ []) (hslash : '/' ∉ e) :
    isAbsPath (String.mk (joinSlash (e :: rest))) = false := by
  obtain ⟨c, t, hect⟩ : ∃ c t, e = c :: t := by
    cases hce : e with
    | nil => exact absurd hce hne
    | cons c t => exact ⟨c, t, rfl⟩
  obtain ⟨u, hu⟩ := joinSlash_head e rest c t hect
  rw [hu]
  have hc : c ≠ '/' := by
    intro hcc
    apply hslash
    rw [hect, hcc]
    exact List.mem_cons_self _ _
  simp [isAbsPath, hc]

theorem Clean_dot : Clean "." = "." := by decide

/-- Cleaning a rebuilt rooted clean path changes nothing. -/
theorem Clean_rooted_cleaned (L : List (List Char))
    (hL : ∀ e ∈ L, e ≠ [] ∧ e ≠ ['.'] ∧ e ≠ ['.', '.'] ∧ '/' ∉ e) :
    Clean (String.mk ('/' :: joinSlash L)) = String.mk ('/' :: joinSlash L) := by
  rw [Clean, if_neg (string_mk_ne_empty _ (List.cons_ne_nil _ _)),
    if_pos (isAbsPath_mk_slash _),
    show String.toList (String.mk ('/' :: joinSlash L)) = '/' :: joinSlash L
      from rfl,
    splitSlash_slash_cons]
  cases L with
  | nil => decide
  | cons e rest =>
    rw [splitSlash_joinSlash (e :: rest) (List.cons_ne_nil e rest)
        (fun x hx => (hL x hx).2.2.2),
      cleanElems_skip true [] [] (e :: rest) (Or.inl rfl),
      cleanElems_normals true (e :: rest)
        (fun x hx => ⟨(hL x hx).1, (hL x hx).2.1, (hL x hx).2.2.1⟩) []]
    rw [List.reverse_nil, List.nil_append]

/-- Cleaning a rebuilt relative path whose element list the loop leaves
unchanged changes nothing. -/
theorem Clean_rel_cleaned_core (e : List Char) (rest : List (List Char))
    (he1 : e ≠ []) (he2 : '/' ∉ e)
    (hall : ∀ x ∈ e :: rest, '/' ∉ x)
    (hclean : cleanElems false [] (e :: rest) = e :: rest) :
    Clean (String.mk (joinSlash (e :: rest)))
      = String.mk (joinSlash (e :: rest)) := by
  obtain ⟨c, t, hect⟩ : ∃ c t, e = c :: t := by
    cases hce : e with
    | nil => exact absurd hce he1
    | cons c t => exact ⟨c, t, rfl⟩
  obtain ⟨u, hu⟩ := joinSlash_head e rest c t hect
  have habs : isAbsPath (String.mk (joinSlash (e :: rest))) = false :=
    isAbsPath_joined_false e rest he1 he2
  rw [Clean,
    if_neg (string_mk_ne_empty _ (by rw [hu]; exact List.cons_ne_nil c u)),
    if_neg (by rw [habs]; exact Bool.false_ne_true),
    show String.toList (String.mk (joinSlash (e :: rest)))
      = joinSlash (e :: rest) from rfl,
    splitSlash_joinSlash (e :: rest) (List.cons_ne_nil e rest) hall, hclean,
    if_neg (by rw [hu]; exact List.cons_ne_nil c u)]

/-- Cleaning a rebuilt relative clean path (leading `..`s allowed) changes
nothing. -/
theorem Clean_rel_cleaned (j : Nat) (ms : List (List Char))
    (hms : ∀ e ∈ ms, e ≠ [] ∧ e ≠ ['.'] ∧ e ≠ ['.', '.'] ∧ '/' ∉ e)
    (hne : List.replicate j ['.', '.'] ++ ms ≠ []) :
    Clean (String.mk (joinSlash (List.replicate j ['.', '.'] ++ ms)))
      = String.mk (joinSlash (List.replicate j ['.', '.'] ++ ms)) := by
  have hclean : cleanElems false [] (List.replicate j ['.', '.'] ++ ms)
      = List.replicate j ['.', '.'] ++ ms := by
    have h0 := cleanElems_dotdots ms
      (fun x hx => ⟨(hms x hx).1, (hms x hx).2.1, (hms x hx).2.2.1⟩) j 0
    rw [List.replicate_zero] at h0
    rw [h0, Nat.zero_add]
  cases j with
  | zero =>
    rw [List.replicate_zero, List.nil_append] at hclean hne ⊢
    cases ms with
    | nil => exact absurd rfl hne
    | cons m ms' =>
      exact Clean_rel_cleaned_core m ms'
        (hms m (List.mem_cons_self _ _)).1
        (hms m (List.mem_cons_self _ _)).2.2.2
        (fun x hx => (hms x hx).2.2.2) hclean
  | succ k =>
    rw [List.replicate_succ, List.cons_append] at hclean ⊢
    refine Clean_rel_cleaned_core ['.', '.'] _ (by decide) (by decide)
      ?_ hclean
    intro x hx
    rcases List.mem_cons.mp hx with h | h
    · subst h; decide
    · rcases List.mem_append.mp h with h2 | h2
      · rw [List.eq_of_mem_replicate h2]; decide
      · exact (hms x h2).2.2.2

/-- `Clean` is idempotent: its output is already a cleaned path. -/
theorem Clean_clean (p : String) : Clean (Clean p) = Clean p := by
  by_cases hp : p = ""
  · subst hp
    decide
  by_cases hroot : isAbsPath p = true
  · obtain ⟨j, ms, heq, hms, hj⟩ := cleanElems_spec true (splitSlash p.toList)
      (splitSlash_no_slash p.toList) [] 0
      (fun x hx => absurd hx (List.not_mem_nil x)) fun _ => rfl
    rw [hj rfl, List.replicate_zero, List.nil_append] at heq
    simp only [List.nil_append] at heq
    have hCp : Clean p = String.mk ('/' :: joinSlash ms) := by
      rw [Clean, if_neg hp, if_pos hroot, heq]
    rw [hCp, Clean_rooted_cleaned ms hms]
  · obtain ⟨j, ms, heq, hms, hj⟩ := cleanElems_spec false (splitSlash p.toList)
      (splitSlash_no_slash p.toList) [] 0
      (fun x hx => absurd hx (List.not_mem_nil x))
      fun habs => absurd habs Bool.false_ne_true
    rw [List.replicate_zero, List.append_nil] at heq
    by_cases hjoin : joinSlash (List.replicate j ['.', '.'] ++ ms) = []
    · have hCp : Clean p = "." := by
        rw [Clean, if_neg hp, if_neg hroot, heq, if_pos hjoin]
      rw [hCp, Clean_dot]
    · have hCp : Clean p
          = String.mk (joinSlash (List.replicate j ['.', '.'] ++ ms)) := by
        rw [Clean, if_neg hp, if_neg hroot, heq, if_neg hjoin]
      have hne : List.replicate j ['.', '.'] ++ ms ≠ [] := by
        intro hL
        apply hjoin
        rw [hL]
        rfl
      rw [hCp, Clean_rel_cleaned j ms hms hne]

/-- `Abs` always returns a cleaned path. -/
theorem Clean_Abs (cwd p : String) : Clean (Abs cwd p) = Abs cwd p := by
  rw [Abs]
  by_cases h : isAbsPath p = true
  · rw [if_pos h]
    exact Clean_clean p
  · rw [if_neg h]
    exact Clean_clean _

/-- C9 counterexample: the `src/unnamed/part_000` variant returns a set
environment value unmodified — here a relative, uncleaned path — so the
claim that `getEnvOrDefault` returns an absolute cleaned path whether the
variable is set or empty fails on that supplied variant. -/
theorem claim_C9_counterexample :
    getEnvOrDefaultAlt "/srv" "data/../vault" "vault" = "data/../vault"
    ∧ isAbsPath "data/../vault" = false
    ∧ Clean "data/../vault" = "vault" := by
  refine ⟨rfl, rfl, ?_⟩
  decide

/-- C9 (amended): the `handlers/bookkeeping.go` variant does return an
absolute, cleaned (`Clean`-fixed-point) path whether the environment
variable is set or empty, provided the working directory is absolute; the
`part_000` variant normalizes only the default — a set (non-empty) value is
returned unmodified and may be relative and uncleaned. -/
theorem claim_C9_amended_normalization (cwd value defaultValue : String)
    (h : isAbsPath cwd = true) :
    isAbsPath (getEnvOrDefault cwd value defaultValue) = true
    ∧ Clean (getEnvOrDefault cwd value defaultValue)
        = getEnvOrDefault cwd value defaultValue
    ∧ (value ≠ "" → getEnvOrDefaultAlt cwd value defaultValue = value)
    ∧ isAbsPath (getEnvOrDefaultAlt cwd "" defaultValue) = true
    ∧ Clean (getEnvOrDefaultAlt cwd "" defaultValue)
        = getEnvOrDefaultAlt cwd "" defaultValue := by
  refine ⟨?_, ?_, ?_, ?_, ?_⟩
  · rw [getEnvOrDefault]
    by_cases hv : value = ""
    · rw [if_pos hv]
      exact isAbsPath_Abs cwd _ h
    · rw [if_neg hv]
      exact isAbsPath_Abs cwd _ h
  · rw [getEnvOrDefault]
    by_cases hv : value = ""
    · rw [if_pos hv]
      exact Clean_Abs cwd _
    · rw [if_neg hv]
      exact Clean_Abs cwd _
  · intro hv
    rw [getEnvOrDefaultAlt, if_neg hv]
  · rw [getEnvOrDefaultAlt, if_pos rfl]
    exact isAbsPath_Abs cwd _ h
  · rw [getEnvOrDefaultAlt, if_pos rfl]
    exact Clean_Abs cwd _

/-- C9 witness: the amended statement at a concrete absolute working
directory, set value, and default. -/
theorem claim_C9_witness :
    isAbsPath (getEnvOrDefault "/srv" "x" "vault") = true
    ∧ Clean (getEnvOrDefault "/srv" "x" "vault")
        = getEnvOrDefault "/srv" "x" "vault"
    ∧ ("x" ≠ "" → getEnvOrDefaultAlt "/srv" "x" "vault" = "x")
    ∧ isAbsPath (getEnvOrDefaultAlt "/srv" "" "vault") = true
    ∧ Clean (getEnvOrDefaultAlt "/srv" "" "vault")
        = getEnvOrDefaultAlt "/srv" "" "vault" :=
  claim_C9_amended_normalization "/srv" "x" "vault" (by decide)

end Goreportcard







